import Mathlib

/-!
Shallow embedding of the document-annotator core (src/app.py) and proofs of
the specified properties of extraction (`get_document_content`), table
rendering (`table_to_markdown`) and reinsertion (`add_comments`).

Modelling choices:
* A docx paragraph is its ordered list of run texts; `Paragraph.text` is the
  concatenation of run texts, as in python-docx.
* The document body is the ordered list of its block-level children: `w:p`
  elements (`CT_P`), `w:tbl` elements (`CT_Tbl`), and anything else
  (`other`, e.g. `sectPr`), exactly the cases distinguished by
  `get_document_content`.
* `doc.paragraphs` in python-docx is the list of direct `w:p` children of the
  body in order; `Document.paragraphs` is the corresponding filter of the body.
* Comments are modelled as a list on the document (the annotation layer).
  `doc.add_comment(paragraph.runs, text, author=...)` appends a comment; the
  anchored paragraph is identified by its position in the flat paragraph list
  (the surrogate for run object identity) together with its run span.
* Python list indexing `xs[i]` (negative wraparound, IndexError out of range)
  is `pyIndex`; an uncaught IndexError aborts `add_comments`, which is the
  `PyError.indexError` outcome of the `Except`-valued embedding, while
  `add_comments_aux` exposes the document state at the abort point (the
  in-place mutations already performed survive the exception).
-/

namespace DocAnnotator

/-- A paragraph: its ordered run texts (python-docx `Paragraph.runs`). -/
structure Paragraph where
  runs : List String
deriving DecidableEq

/-- python-docx `Paragraph.text`: concatenation of the run texts. -/
def Paragraph.text (p : Paragraph) : String :=
  String.join p.runs

/-- A table: its rows of cell texts plus its column count
(python-docx `Table.rows` / `Table.columns`). -/
structure DocTable where
  rows : List (List String)
  columns : Nat
deriving DecidableEq

/-- A block-level child of the document body: `CT_P`, `CT_Tbl`, or any other
element type (skipped by extraction). -/
inductive BodyElement where
  | para (p : Paragraph)
  | table (t : DocTable)
  | other
deriving DecidableEq

/-- A review comment in the document's annotation layer. `para_pos` is the
position in the flat paragraph list of the paragraph whose runs were passed to
`doc.add_comment` (the identity of the anchor); `anchor_runs` is that run
span. -/
structure Comment where
  para_pos : Nat
  anchor_runs : List String
  text : String
  author : String
deriving DecidableEq

/-- A document: its body children in order, plus its annotation layer. -/
structure Document where
  body : List BodyElement
  comments : List Comment
deriving DecidableEq

/-- View a body element as a paragraph, when it is one. -/
def BodyElement.asPara : BodyElement → Option Paragraph
  | .para p => some p
  | _ => none

/-- python-docx `Document.paragraphs`: the flat ordered list of the body's
direct paragraph children. -/
def Document.paragraphs (doc : Document) : List Paragraph :=
  doc.body.filterMap BodyElement.asPara

/-- Pydantic model `AnswerKey` (an AnswerAssignment): a paragraph identifier
and an answer text. The identifier is an `Int` because the classifier may
return any integer. -/
structure AnswerKey where
  para_id : Int
  answer : String
deriving DecidableEq

/-- Pydantic model `AnswerKeys` (an AnswerKeySet). -/
structure AnswerKeys where
  answer_keys : List AnswerKey
deriving DecidableEq

/-- One entry of the `content` list built by `get_document_content`: a
paragraph record (trimmed text and `para_id`) or a table record. -/
inductive ContentRecord where
  | paragraph (content : String) (para_id : Nat)
  | table (content : String)
deriving DecidableEq

/-- The whitespace characters removed by Python `str.strip()` (the ASCII
ones relevant to document text). -/
def pyWhitespace (c : Char) : Bool :=
  c = ' ' || c = '\t' || c = '\n' || c = '\r' || c = '\x0b' || c = '\x0c'

/-- Python `str.strip()`: removes leading and trailing whitespace. Defined by
structural recursion over the character list so concrete inputs evaluate. -/
def pyStrip (s : String) : String :=
  ⟨((s.data.dropWhile pyWhitespace).reverse.dropWhile pyWhitespace).reverse⟩

/-- Python `str.replace(a, b)` for single-character `a` and `b` (the only form
the source uses: `cell.text.replace('\n', ' ')`). -/
def pyReplaceChar (s : String) (a b : Char) : String :=
  ⟨s.data.map (fun c => if c = a then b else c)⟩

/-- `cell.text.replace('\n', ' ').strip()` for one table cell. -/
def renderCell (s : String) : String :=
  pyStrip (pyReplaceChar s '\n' ' ')

/-- One rendered table row: `f"| {' | '.join(cells)} |"`. -/
def renderRow (cells : List String) : String :=
  "| " ++ String.intercalate " | " (cells.map renderCell) ++ " |"

/-- The header separator: `f"| {' | '.join(['---'] * len(table.columns))} |"`. -/
def headerSep (columns : Nat) : String :=
  "| " ++ String.intercalate " | " (List.replicate columns "---") ++ " |"

/-- `table_to_markdown` from src/app.py: render each row, then when the row
list is non-empty insert the header separator at index 1 (Python
`md_rows.insert(1, header_sep)`), and join with newlines. -/
def table_to_markdown (t : DocTable) : String :=
  let md_rows := t.rows.map renderRow
  let md_rows :=
    if 0 < md_rows.length then
      match md_rows with
      | [] => [headerSep t.columns]
      | r :: rest => r :: headerSep t.columns :: rest
    else md_rows
  String.intercalate "\n" md_rows

/-- The body-walk loop of `get_document_content`: `i` is the running paragraph
identifier counter. A `CT_P` child emits a paragraph record exactly when its
trimmed text is non-empty, and increments `i` in either case; a `CT_Tbl` child
emits a table record without touching `i`; any other child is skipped. -/
def extractGo : List BodyElement → Nat → List ContentRecord
  | [], _ => []
  | .para p :: rest, i =>
      if pyStrip p.text = "" then
        extractGo rest (i + 1)
      else
        ContentRecord.paragraph (pyStrip p.text) i :: extractGo rest (i + 1)
  | .table t :: rest, i =>
      ContentRecord.table (table_to_markdown t) :: extractGo rest i
  | .other :: rest, i =>
      extractGo rest i

/-- `get_document_content` from src/app.py, restricted to the already-opened
document: the walk over `doc.element.body` starting with counter 0. -/
def get_document_content (doc : Document) : List ContentRecord :=
  extractGo doc.body 0

/-- The one uncaught Python exception the embedded code can raise. -/
inductive PyError where
  | indexError
deriving DecidableEq

/-- Python list indexing `xs[i]`: negative indices wrap by adding `len(xs)`;
an effective index outside `[0, len(xs))` raises IndexError (`none`). Returns
the effective index together with the element. -/
def pyIndex {α : Type} (xs : List α) (i : Int) : Option (Nat × α) :=
  let j : Int := if i < 0 then i + xs.length else i
  if 0 ≤ j ∧ j < xs.length then
    (xs[j.toNat]?).map (fun a => (j.toNat, a))
  else
    none

/-- `doc.add_comment(paragraph.runs, answer, author="ChemistryAI")` where
`paragraph` sits at position `pos` of the flat paragraph list: appends one
comment to the annotation layer. -/
def addOneComment (doc : Document) (pos : Nat) (p : Paragraph) (answer : String) : Document :=
  { doc with
    comments := doc.comments ++
      [{ para_pos := pos, anchor_runs := p.runs, text := answer, author := "ChemistryAI" }] }

/-- The loop of `add_comments`, with the mutation made explicit: processes the
assignments in order; an IndexError from `doc.paragraphs[answer_key.para_id]`
stops the loop. Returns the document state at exit (earlier in-place mutations
survive an exception) together with the exception, if any. -/
def add_comments_aux : Document → List AnswerKey → Document × Option PyError
  | doc, [] => (doc, none)
  | doc, ak :: rest =>
      match pyIndex (Document.paragraphs doc) ak.para_id with
      | none => (doc, some PyError.indexError)
      | some (pos, p) => add_comments_aux (addOneComment doc pos p ak.answer) rest

/-- `add_comments` from src/app.py as seen by its caller: the annotated
document on normal return, or the uncaught IndexError. -/
def add_comments (doc : Document) (answer_keys : AnswerKeys) : Except PyError Document :=
  match add_comments_aux doc answer_keys.answer_keys with
  | (d, none) => Except.ok d
  | (_, some e) => Except.error e

/-! ## Observation helpers, specification-side definitions and examples -/

/-- View a content record as a paragraph record `(content, para_id)`. -/
def ContentRecord.asParaRec : ContentRecord → Option (String × Nat)
  | .paragraph c i => some (c, i)
  | _ => none

/-- The paragraph records of a content sequence, in order. -/
def paraRecs (rs : List ContentRecord) : List (String × Nat) :=
  rs.filterMap ContentRecord.asParaRec

/-- The paragraph records extraction emits from a flat paragraph list starting
at counter `i`: every paragraph consumes one identifier, only those with
non-empty trimmed text are emitted. -/
def emitSpec : List Paragraph → Nat → List (String × Nat)
  | [], _ => []
  | p :: ps, i =>
      if pyStrip p.text = "" then
        emitSpec ps (i + 1)
      else
        (pyStrip p.text, i) :: emitSpec ps (i + 1)

/-- Number of paragraph children among a list of body elements. -/
def numParas (l : List BodyElement) : Nat :=
  (l.filterMap BodyElement.asPara).length

/-- The comment `add_comments` creates for an in-range assignment `ak`
against the paragraph list of `doc`. -/
def mkCommentD (doc : Document) (ak : AnswerKey) : Comment :=
  { para_pos := ak.para_id.toNat,
    anchor_runs := ((Document.paragraphs doc).getD ak.para_id.toNat ⟨[]⟩).runs,
    text := ak.answer,
    author := "ChemistryAI" }

/-- Table rendering as the specification phrases it: one line per row, a
single separator line immediately after the first row sized to the column
count, and an empty output (no separator) for a table with zero rows. -/
def table_render_spec (t : DocTable) : String :=
  match t.rows with
  | [] => ""
  | r0 :: rest =>
      String.intercalate "\n" (renderRow r0 :: headerSep t.columns :: rest.map renderRow)

/-- The spec's emission-filtering example: paragraphs `["", "Q1", "", "Q2"]`. -/
def exDocEmpties : Document :=
  { body := [.para ⟨[""]⟩, .para ⟨["Q1"]⟩, .para ⟨[""]⟩, .para ⟨["Q2"]⟩], comments := [] }

/-- The spec's round-trip example: paragraphs `["Question A", "Question B"]`. -/
def exDocAB : Document :=
  { body := [.para ⟨["Question A"]⟩, .para ⟨["Question B"]⟩], comments := [] }

/-- A two-paragraph document for the out-of-range example. -/
def exDoc2 : Document :=
  { body := [.para ⟨["P0"]⟩, .para ⟨["P1"]⟩], comments := [] }

/-- A one-paragraph document. -/
def exDoc1 : Document :=
  { body := [.para ⟨["P"]⟩], comments := [] }

/-! ## Lemmas about extraction -/

theorem extractGo_paraRecs (l : List BodyElement) (i : Nat) :
    paraRecs (extractGo l i) = emitSpec (l.filterMap BodyElement.asPara) i := by
  induction l generalizing i with
  | nil => rfl
  | cons e rest ih =>
    cases e with
    | para p =>
      by_cases h : pyStrip p.text = "" <;>
        simp only [extractGo, h, if_pos, if_neg, ite_true, ite_false, not_false_iff,
          List.filterMap_cons, BodyElement.asPara, emitSpec, paraRecs,
          ContentRecord.asParaRec, List.cons.injEq, true_and] <;>
        exact ih (i + 1)
    | table t =>
      simp only [extractGo, List.filterMap_cons, BodyElement.asPara, paraRecs,
        ContentRecord.asParaRec]
      exact ih i
    | other =>
      simp only [extractGo, List.filterMap_cons, BodyElement.asPara]
      exact ih i

theorem emitSpec_mem_of_get (ps : List Paragraph) (k : Nat) (p : Paragraph) (i : Nat)
    (hget : ps[k]? = some p) (hne : pyStrip p.text ≠ "") :
    (pyStrip p.text, i + k) ∈ emitSpec ps i := by
  induction ps generalizing i k with
  | nil => simp at hget
  | cons q qs ih =>
    cases k with
    | zero =>
      simp at hget
      subst hget
      simp [emitSpec, hne]
    | succ k =>
      simp at hget
      have hmem := ih k (i + 1) hget
      have harith : i + 1 + k = i + (k + 1) := by omega
      rw [harith] at hmem
      by_cases h : pyStrip q.text = "" <;> simp [emitSpec, h, hmem]

theorem emitSpec_mem_elim (ps : List Paragraph) (i : Nat) (c : String) (q : Nat)
    (hmem : (c, q) ∈ emitSpec ps i) :
    ∃ k p, ps[k]? = some p ∧ q = i + k ∧ pyStrip p.text = c ∧ c ≠ "" := by
  induction ps generalizing i with
  | nil => simp [emitSpec] at hmem
  | cons p ps ih =>
    by_cases h : pyStrip p.text = ""
    · rw [emitSpec, if_pos h] at hmem
      obtain ⟨k, p', hget, hq, hc, hcne⟩ := ih (i + 1) hmem
      exact ⟨k + 1, p', by simpa using hget, by omega, hc, hcne⟩
    · rw [emitSpec, if_neg h] at hmem
      rcases List.mem_cons.mp hmem with heq | htail
      · obtain ⟨hc1, hc2⟩ : c = pyStrip p.text ∧ q = i := by
          simpa [Prod.ext_iff] using heq
        exact ⟨0, p, by simp, by omega, hc1.symm, by rw [hc1]; exact h⟩
      · obtain ⟨k, p', hget, hq, hc, hcne⟩ := ih (i + 1) htail
        exact ⟨k + 1, p', by simpa using hget, by omega, hc, hcne⟩

theorem paraRecs_mem_iff (rs : List ContentRecord) (c : String) (q : Nat) :
    (c, q) ∈ paraRecs rs ↔ ContentRecord.paragraph c q ∈ rs := by
  induction rs with
  | nil => simp [paraRecs]
  | cons r rs ih =>
    cases r with
    | paragraph c' q' =>
      simp only [paraRecs, List.filterMap_cons, ContentRecord.asParaRec, List.mem_cons,
        Prod.mk.injEq, ContentRecord.paragraph.injEq] at *
      tauto
    | table s =>
      simp only [paraRecs, List.filterMap_cons, ContentRecord.asParaRec, List.mem_cons] at *
      simp only [show (ContentRecord.paragraph c q = ContentRecord.table s) = False by
        simp, false_or]
      exact ih

theorem extractGo_append (l1 l2 : List BodyElement) (i : Nat) :
    extractGo (l1 ++ l2) i = extractGo l1 i ++ extractGo l2 (i + numParas l1) := by
  induction l1 generalizing i with
  | nil => simp [extractGo, numParas]
  | cons e rest ih =>
    cases e with
    | para p =>
      have harith : i + 1 + numParas rest = i + numParas (BodyElement.para p :: rest) := by
        simp [numParas, List.filterMap_cons, BodyElement.asPara]
        omega
      by_cases h : pyStrip p.text = "" <;>
        simp [extractGo, h, ih, harith]
    | table t =>
      have harith : numParas (BodyElement.table t :: rest) = numParas rest := by
        simp [numParas, List.filterMap_cons, BodyElement.asPara]
      simp [extractGo, ih, harith]
    | other =>
      have harith : numParas (BodyElement.other :: rest) = numParas rest := by
        simp [numParas, List.filterMap_cons, BodyElement.asPara]
      simp [extractGo, ih, harith]

/-! ## Lemmas about reinsertion -/

theorem body_addOneComment (doc : Document) (pos : Nat) (p : Paragraph) (ans : String) :
    (addOneComment doc pos p ans).body = doc.body := rfl

theorem paragraphs_addOneComment (doc : Document) (pos : Nat) (p : Paragraph) (ans : String) :
    Document.paragraphs (addOneComment doc pos p ans) = Document.paragraphs doc := rfl

theorem mkCommentD_addOneComment (doc : Document) (pos : Nat) (p : Paragraph) (ans : String)
    (ak : AnswerKey) :
    mkCommentD (addOneComment doc pos p ans) ak = mkCommentD doc ak := rfl

theorem pyIndex_nonneg_inRange {α : Type} (xs : List α) (i : Int) (h0 : 0 ≤ i)
    (h1 : i < (xs.length : Int)) :
    ∃ a, xs[i.toNat]? = some a ∧ pyIndex xs i = some (i.toNat, a) := by
  have hlt : i.toNat < xs.length := by omega
  have hni : ¬ i < 0 := by omega
  refine ⟨xs[i.toNat], List.getElem?_eq_getElem hlt, ?_⟩
  simp only [pyIndex, if_neg hni]
  rw [if_pos ⟨h0, h1⟩, List.getElem?_eq_getElem hlt]
  rfl

theorem pyIndex_ge {α : Type} (xs : List α) (i : Int) (h : (xs.length : Int) ≤ i) :
    pyIndex xs i = none := by
  have hni : ¬ i < 0 := by omega
  simp only [pyIndex, if_neg hni]
  rw [if_neg (by omega)]

theorem pyIndex_neg_oob {α : Type} (xs : List α) (i : Int) (h : i + (xs.length : Int) < 0) :
    pyIndex xs i = none := by
  have hni : i < 0 := by omega
  simp only [pyIndex, if_pos hni]
  rw [if_neg (by omega)]

theorem pyIndex_neg_wrap {α : Type} (xs : List α) (i : Int) (hneg : i < 0)
    (h0 : 0 ≤ i + (xs.length : Int)) :
    ∃ a, xs[(i + (xs.length : Int)).toNat]? = some a ∧
      pyIndex xs i = some ((i + (xs.length : Int)).toNat, a) := by
  have hlt : (i + (xs.length : Int)).toNat < xs.length := by omega
  refine ⟨xs[(i + (xs.length : Int)).toNat], List.getElem?_eq_getElem hlt, ?_⟩
  simp only [pyIndex, if_pos hneg]
  rw [if_pos (by omega), List.getElem?_eq_getElem hlt]
  rfl

theorem add_comments_aux_body (aks : List AnswerKey) : ∀ doc : Document,
    (add_comments_aux doc aks).1.body = doc.body := by
  induction aks with
  | nil => intro doc; rfl
  | cons ak rest ih =>
    intro doc
    cases hpy : pyIndex (Document.paragraphs doc) ak.para_id with
    | none => simp [add_comments_aux, hpy]
    | some pa =>
      obtain ⟨pos, p⟩ := pa
      simp only [add_comments_aux, hpy]
      rw [ih]
      rfl

theorem add_comments_aux_inRange (aks : List AnswerKey) : ∀ doc : Document,
    (∀ ak ∈ aks, 0 ≤ ak.para_id ∧ ak.para_id < ((Document.paragraphs doc).length : Int)) →
    add_comments_aux doc aks =
      ({ doc with comments := doc.comments ++ aks.map (mkCommentD doc) }, none) := by
  induction aks with
  | nil => intro doc _; simp [add_comments_aux]
  | cons ak rest ih =>
    intro doc h
    obtain ⟨h0, h1⟩ := h ak (List.mem_cons_self ak rest)
    obtain ⟨a, hget, hpy⟩ := pyIndex_nonneg_inRange (Document.paragraphs doc) ak.para_id h0 h1
    have hone : addOneComment doc ak.para_id.toNat a ak.answer =
        { doc with comments := doc.comments ++ [mkCommentD doc ak] } := by
      simp [addOneComment, mkCommentD, List.getD_eq_getElem?_getD, hget]
    have hrest : ∀ ak' ∈ rest, 0 ≤ ak'.para_id ∧
        ak'.para_id <
          ((Document.paragraphs (addOneComment doc ak.para_id.toNat a ak.answer)).length : Int) := by
      intro ak' hmem
      rw [paragraphs_addOneComment]
      exact h ak' (List.mem_cons_of_mem _ hmem)
    have hmk : mkCommentD { doc with comments := doc.comments ++ [mkCommentD doc ak] }
        = mkCommentD doc := rfl
    simp only [add_comments_aux, hpy]
    rw [ih _ hrest]
    simp [hone, hmk]

theorem add_comments_aux_append (l1 l2 : List AnswerKey) : ∀ doc : Document,
    (add_comments_aux doc l1).2 = none →
    add_comments_aux doc (l1 ++ l2) = add_comments_aux (add_comments_aux doc l1).1 l2 := by
  induction l1 with
  | nil => intro doc _; rfl
  | cons ak rest ih =>
    intro doc h
    cases hpy : pyIndex (Document.paragraphs doc) ak.para_id with
    | none => simp [add_comments_aux, hpy] at h
    | some pa =>
      obtain ⟨pos, p⟩ := pa
      have h' : (add_comments_aux (addOneComment doc pos p ak.answer) rest).2 = none := by
        simpa [add_comments_aux, hpy] using h
      simp only [List.cons_append, add_comments_aux, hpy]
      exact ih _ h'

/-! ## Claim theorems -/

/-- Claim C1: for every document and every paragraph at zero-based position `p`
in the flat paragraph list, extraction assigns that paragraph the identifier
`p` (every paragraph with non-empty trimmed text at flat position `p` is
emitted with identifier exactly `p`), and every identifier produced during
extraction resolves via positional indexing of the flat paragraph list to the
paragraph it was produced from. -/
theorem C1_identifier_alignment (doc : Document) :
    (∀ (p : Nat) (P : Paragraph), (Document.paragraphs doc)[p]? = some P →
      pyStrip P.text ≠ "" →
      ContentRecord.paragraph (pyStrip P.text) p ∈ get_document_content doc) ∧
    (∀ (c : String) (q : Nat), ContentRecord.paragraph c q ∈ get_document_content doc →
      ∃ P, (Document.paragraphs doc)[q]? = some P ∧ pyStrip P.text = c) := by
  have hrw : paraRecs (get_document_content doc) = emitSpec (Document.paragraphs doc) 0 :=
    extractGo_paraRecs doc.body 0
  constructor
  · intro p P hget hne
    rw [← paraRecs_mem_iff, hrw]
    have hmem := emitSpec_mem_of_get (Document.paragraphs doc) p P 0 hget hne
    simpa using hmem
  · intro c q hmem
    rw [← paraRecs_mem_iff, hrw] at hmem
    obtain ⟨k, P, hget, hq, hc, _⟩ := emitSpec_mem_elim (Document.paragraphs doc) 0 c q hmem
    have hk : q = k := by omega
    exact ⟨P, hk ▸ hget, hc⟩

/-- Witness for C1 at the spec's example document. -/
theorem C1_identifier_alignment_witness :
    ContentRecord.paragraph "Q1" 1 ∈ get_document_content exDocEmpties :=
  (C1_identifier_alignment exDocEmpties).1 1 ⟨["Q1"]⟩ (by decide) (by decide)

/-- Claim C2: a paragraph whose trimmed text is empty is never emitted into
the content sequence (no record carries its identifier), but still increments
the identifier counter: the document with paragraph texts
`["", "Q1", "", "Q2"]` yields exactly the records with identifiers 1 and 3. -/
theorem C2_emission_filtering :
    (∀ (doc : Document) (q : Nat) (P : Paragraph),
      (Document.paragraphs doc)[q]? = some P → pyStrip P.text = "" →
      ∀ c, ContentRecord.paragraph c q ∉ get_document_content doc) ∧
    get_document_content exDocEmpties =
      [ContentRecord.paragraph "Q1" 1, ContentRecord.paragraph "Q2" 3] := by
  constructor
  · intro doc q P hget hempty c hmem
    have hrw : paraRecs (get_document_content doc) = emitSpec (Document.paragraphs doc) 0 :=
      extractGo_paraRecs doc.body 0
    rw [← paraRecs_mem_iff, hrw] at hmem
    obtain ⟨k, P', hget', hq, hc, hcne⟩ := emitSpec_mem_elim (Document.paragraphs doc) 0 c q hmem
    have hk : q = k := by omega
    rw [← hk] at hget'
    rw [hget] at hget'
    have hPP : P = P' := by injection hget'
    rw [← hPP] at hc
    rw [hempty] at hc
    exact hcne hc.symm
  · rfl

/-- Witness for C2 at the spec's example document. -/
theorem C2_emission_filtering_witness :
    ContentRecord.paragraph "x" 0 ∉ get_document_content exDocEmpties :=
  C2_emission_filtering.1 exDocEmpties 0 ⟨[""]⟩ (by decide) (by decide) "x"

/-- Claim C3: reinserting the AnswerKeySet `[{0,"42"},{1,"7"}]` into the
document with paragraphs `["Question A", "Question B"]` attaches exactly one
annotation with text "42" to paragraph 0 and exactly one with text "7" to
paragraph 1, no other paragraph gains an annotation, every annotation is
anchored to the full run-span of its paragraph, and every annotation carries
the fixed authoring label. -/
theorem C3_roundtrip_reinsertion :
    ∃ d, add_comments exDocAB ⟨[⟨0, "42"⟩, ⟨1, "7"⟩]⟩ = Except.ok d ∧
      (d.comments.filter (fun c => c.para_pos == 0)).map Comment.text = ["42"] ∧
      (d.comments.filter (fun c => c.para_pos == 1)).map Comment.text = ["7"] ∧
      (d.comments.filter (fun c => 2 ≤ c.para_pos)).length = 0 ∧
      d.comments.map Comment.author = ["ChemistryAI", "ChemistryAI"] ∧
      d.comments.map Comment.anchor_runs = (Document.paragraphs exDocAB).map Paragraph.runs ∧
      (Document.paragraphs exDocAB).map Paragraph.runs = [["Question A"], ["Question B"]] := by
  refine ⟨{ exDocAB with comments :=
      [{ para_pos := 0, anchor_runs := ["Question A"], text := "42", author := "ChemistryAI" },
       { para_pos := 1, anchor_runs := ["Question B"], text := "7", author := "ChemistryAI" }] },
    rfl, rfl, rfl, rfl, rfl, rfl, rfl⟩

/-- Counterexample to claim C4: on a two-paragraph document, the AnswerKeySet
`[{0,"a"},{99,"x"},{1,"b"}]` makes reinsertion abort with an uncaught
IndexError; the valid assignment `{1,"b"}` after the out-of-range one is NOT
applied (only "a" was attached when the loop died), and no per-assignment
report is produced. -/
theorem C4_out_of_range_counterexample :
    add_comments exDoc2 ⟨[⟨0, "a"⟩, ⟨99, "x"⟩, ⟨1, "b"⟩]⟩ = Except.error PyError.indexError ∧
    (add_comments_aux exDoc2 [⟨0, "a"⟩, ⟨99, "x"⟩, ⟨1, "b"⟩]).1.comments.map Comment.text =
      ["a"] :=
  ⟨rfl, rfl⟩

/-- Claim C4 as amended: reinsertion aborts at the first assignment whose
identifier is ≥ the paragraph count, raising an IndexError; the assignments
before it are applied (their comments are in the document state at the abort),
the assignments after it are not, and no per-assignment report is made. -/
theorem C4_out_of_range_aborts (doc : Document) (pre : List AnswerKey) (bad : AnswerKey)
    (post : List AnswerKey)
    (hpre : ∀ ak ∈ pre, 0 ≤ ak.para_id ∧ ak.para_id < ((Document.paragraphs doc).length : Int))
    (hbad : ((Document.paragraphs doc).length : Int) ≤ bad.para_id) :
    add_comments doc ⟨pre ++ bad :: post⟩ = Except.error PyError.indexError ∧
    (add_comments_aux doc (pre ++ bad :: post)).1.comments =
      doc.comments ++ pre.map (mkCommentD doc) := by
  have hdpre : add_comments_aux doc pre =
      ({ doc with comments := doc.comments ++ pre.map (mkCommentD doc) }, none) :=
    add_comments_aux_inRange pre doc hpre
  have hnone : (add_comments_aux doc pre).2 = none := by rw [hdpre]
  have happ : add_comments_aux doc (pre ++ bad :: post) =
      add_comments_aux { doc with comments := doc.comments ++ pre.map (mkCommentD doc) }
        (bad :: post) := by
    have h := add_comments_aux_append pre (bad :: post) doc hnone
    rw [h, hdpre]
  have hpynone : pyIndex
      (Document.paragraphs { doc with comments := doc.comments ++ pre.map (mkCommentD doc) })
      bad.para_id = none := by
    have hpar : Document.paragraphs
        { doc with comments := doc.comments ++ pre.map (mkCommentD doc) } =
        Document.paragraphs doc := rfl
    rw [hpar]
    exact pyIndex_ge _ _ hbad
  have hfinal : add_comments_aux doc (pre ++ bad :: post) =
      ({ doc with comments := doc.comments ++ pre.map (mkCommentD doc) },
        some PyError.indexError) := by
    rw [happ]
    simp only [add_comments_aux, hpynone]
  constructor
  · simp only [add_comments, hfinal]
  · rw [hfinal]

/-- Witness for the amended C4. -/
theorem C4_out_of_range_aborts_witness :
    add_comments exDoc2 ⟨[⟨0, "a"⟩] ++ ⟨99, "x"⟩ :: [⟨1, "b"⟩]⟩ =
      Except.error PyError.indexError ∧
    (add_comments_aux exDoc2 ([⟨0, "a"⟩] ++ ⟨99, "x"⟩ :: [⟨1, "b"⟩])).1.comments =
      exDoc2.comments ++ ([AnswerKey.mk 0 "a"]).map (mkCommentD exDoc2) :=
  C4_out_of_range_aborts exDoc2 [⟨0, "a"⟩] ⟨99, "x"⟩ [⟨1, "b"⟩] (by decide) (by decide)

/-- Counterexample to claim C5: on a one-paragraph document the assignment
with negative identifier -1 does not fail at all — reinsertion succeeds and
attaches the annotation to paragraph 0 (the last paragraph). -/
theorem C5_negative_identifier_counterexample :
    add_comments exDoc1 ⟨[⟨-1, "neg"⟩]⟩ = Except.ok
      { exDoc1 with comments :=
          [{ para_pos := 0, anchor_runs := ["P"], text := "neg", author := "ChemistryAI" }] } :=
  rfl

/-- Claim C5 as amended: for an assignment with negative identifier `d` on a
document with `n` paragraphs, reinsertion fails (with an IndexError that
aborts the batch, attaching nothing for that assignment) only when `d + n < 0`;
when `0 ≤ d + n` the assignment silently attaches its annotation to the
paragraph at position `d + n` instead of being rejected. -/
theorem C5_negative_identifier (doc : Document) (ak : AnswerKey) (rest : List AnswerKey)
    (hneg : ak.para_id < 0) :
    (ak.para_id + ((Document.paragraphs doc).length : Int) < 0 →
      add_comments doc ⟨ak :: rest⟩ = Except.error PyError.indexError ∧
      add_comments_aux doc (ak :: rest) = (doc, some PyError.indexError)) ∧
    (0 ≤ ak.para_id + ((Document.paragraphs doc).length : Int) →
      ∃ p, (Document.paragraphs doc)[(ak.para_id +
          ((Document.paragraphs doc).length : Int)).toNat]? = some p ∧
        add_comments_aux doc (ak :: rest) =
          add_comments_aux (addOneComment doc
            (ak.para_id + ((Document.paragraphs doc).length : Int)).toNat p ak.answer) rest) := by
  constructor
  · intro hoob
    have hpy := pyIndex_neg_oob (Document.paragraphs doc) ak.para_id hoob
    have haux : add_comments_aux doc (ak :: rest) = (doc, some PyError.indexError) := by
      simp only [add_comments_aux, hpy]
    exact ⟨by simp only [add_comments, haux], haux⟩
  · intro hin
    obtain ⟨p, hget, hpy⟩ := pyIndex_neg_wrap (Document.paragraphs doc) ak.para_id hneg hin
    exact ⟨p, hget, by simp only [add_comments_aux, hpy]⟩

/-- Witness for the amended C5. -/
theorem C5_negative_identifier_witness :
    add_comments exDoc1 ⟨[⟨-2, "z"⟩]⟩ = Except.error PyError.indexError ∧
    add_comments_aux exDoc1 [⟨-2, "z"⟩] = (exDoc1, some PyError.indexError) :=
  (C5_negative_identifier exDoc1 ⟨-2, "z"⟩ [] (by decide)).1 (by decide)

/-- Claim C6: reinserting `[{0,"A"},{0,"B"}]` into a one-paragraph document
attaches two distinct, independent annotations to paragraph 0 (first "A",
then "B"); in general, for in-range assignments on a document with no prior
annotations, the number of annotations a paragraph ends up with equals the
number of assignments targeting its identifier. -/
theorem C6_multiple_assignments :
    (add_comments exDoc1 ⟨[⟨0, "A"⟩, ⟨0, "B"⟩]⟩ = Except.ok
      { exDoc1 with comments :=
          [{ para_pos := 0, anchor_runs := ["P"], text := "A", author := "ChemistryAI" },
           { para_pos := 0, anchor_runs := ["P"], text := "B", author := "ChemistryAI" }] }) ∧
    ∀ (doc : Document) (aks : List AnswerKey) (j : Nat),
      doc.comments = [] →
      (∀ ak ∈ aks, 0 ≤ ak.para_id ∧ ak.para_id < ((Document.paragraphs doc).length : Int)) →
      ∃ d, add_comments doc ⟨aks⟩ = Except.ok d ∧
        (d.comments.filter (fun c => c.para_pos == j)).length =
          (aks.filter (fun ak => ak.para_id == (j : Int))).length := by
  constructor
  · rfl
  · intro doc aks j hcom h
    have haux : add_comments_aux doc aks =
        ({ doc with comments := doc.comments ++ aks.map (mkCommentD doc) }, none) :=
      add_comments_aux_inRange aks doc h
    refine ⟨{ doc with comments := doc.comments ++ aks.map (mkCommentD doc) }, ?_, ?_⟩
    · simp only [add_comments, haux]
    · have key : ∀ l : List AnswerKey, (∀ ak ∈ l, 0 ≤ ak.para_id) →
          ((l.map (mkCommentD doc)).filter (fun c => c.para_pos == j)).length =
          (l.filter (fun ak => ak.para_id == (j : Int))).length := by
        intro l
        induction l with
        | nil => intro _; rfl
        | cons ak rest ih =>
          intro hall
          have h0 := hall ak (List.mem_cons_self ak rest)
          have heq : ((mkCommentD doc ak).para_pos == j) = (ak.para_id == (j : Int)) := by
            have hpp : (mkCommentD doc ak).para_pos = ak.para_id.toNat := rfl
            rw [hpp, Bool.eq_iff_iff]
            simp only [beq_iff_eq]
            omega
          have ih' := ih (fun a ha => hall a (List.mem_cons_of_mem _ ha))
          simp only [List.map_cons, List.filter_cons, heq]
          split <;> simp [ih']
      simp only [hcom, List.nil_append]
      exact key aks (fun ak ha => (h ak ha).1)

/-- Witness for C6. -/
theorem C6_multiple_assignments_witness :
    ∃ d, add_comments exDoc1 ⟨[⟨0, "A"⟩, ⟨0, "B"⟩]⟩ = Except.ok d ∧
      (d.comments.filter (fun c => c.para_pos == 0)).length =
        (([⟨0, "A"⟩, ⟨0, "B"⟩] : List AnswerKey).filter
          (fun ak => ak.para_id == ((0 : Nat) : Int))).length :=
  C6_multiple_assignments.2 exDoc1 [⟨0, "A"⟩, ⟨0, "B"⟩] 0 rfl (by decide)

/-- Claim C7: inserting a table between two paragraphs changes neither the
texts nor the identifiers of the emitted paragraph records (in particular the
identifier of the paragraph following the table), while the table itself is
emitted as a table record; any other block type is skipped entirely, leaving
extraction output unchanged. -/
theorem C7_table_isolation (l1 l2 : List BodyElement) (t : DocTable) (cs : List Comment) :
    paraRecs (get_document_content ⟨l1 ++ BodyElement.table t :: l2, cs⟩) =
      paraRecs (get_document_content ⟨l1 ++ l2, cs⟩) ∧
    ContentRecord.table (table_to_markdown t) ∈
      get_document_content ⟨l1 ++ BodyElement.table t :: l2, cs⟩ ∧
    get_document_content ⟨l1 ++ BodyElement.other :: l2, cs⟩ =
      get_document_content ⟨l1 ++ l2, cs⟩ := by
  have eT : ∀ i, extractGo (BodyElement.table t :: l2) i =
      ContentRecord.table (table_to_markdown t) :: extractGo l2 i := fun _ => rfl
  have eO : ∀ i, extractGo (BodyElement.other :: l2) i = extractGo l2 i := fun _ => rfl
  refine ⟨?_, ?_, ?_⟩
  · show paraRecs (extractGo (l1 ++ BodyElement.table t :: l2) 0) =
      paraRecs (extractGo (l1 ++ l2) 0)
    rw [extractGo_append, extractGo_append, eT]
    simp [paraRecs, List.filterMap_append, List.filterMap_cons, ContentRecord.asParaRec]
  · show ContentRecord.table (table_to_markdown t) ∈ extractGo (l1 ++ BodyElement.table t :: l2) 0
    rw [extractGo_append, eT]
    simp
  · show extractGo (l1 ++ BodyElement.other :: l2) 0 = extractGo (l1 ++ l2) 0
    rw [extractGo_append, extractGo_append, eO]

/-- Claim C8: `table_to_markdown` renders row-major with one line per row,
cells joined by the column delimiter after flattening embedded line breaks to
spaces and trimming, with exactly one separator line immediately after the
first row sized to the table's column count; a table with zero rows renders
to the empty output with no separator line. -/
theorem C8_table_rendering (t : DocTable) :
    table_to_markdown t = table_render_spec t ∧
    (t.rows = [] → table_to_markdown t = "") := by
  obtain ⟨rows, cols⟩ := t
  cases rows with
  | nil => exact ⟨rfl, fun _ => rfl⟩
  | cons r rest =>
    refine ⟨?_, fun h => nomatch h⟩
    simp only [table_to_markdown, table_render_spec, List.map_cons, List.length_cons]
    rw [if_pos (Nat.succ_pos _)]

/-- Witness for C8: the zero-row table renders to the empty string. -/
theorem C8_table_rendering_witness :
    table_to_markdown { rows := [], columns := 3 } = "" :=
  (C8_table_rendering { rows := [], columns := 3 }).2 rfl

/-- Claim C9: for an AnswerKeySet whose identifiers are all in range,
reinsertion succeeds and mutates only the annotation layer: the document body,
the flat paragraph list (hence paragraph order and count), and every
paragraph's text are unchanged. -/
theorem C9_reinsertion_frame (doc : Document) (aks : List AnswerKey)
    (h : ∀ ak ∈ aks, 0 ≤ ak.para_id ∧ ak.para_id < ((Document.paragraphs doc).length : Int)) :
    ∃ d, add_comments doc ⟨aks⟩ = Except.ok d ∧
      d.body = doc.body ∧
      Document.paragraphs d = Document.paragraphs doc ∧
      (Document.paragraphs d).map Paragraph.text =
        (Document.paragraphs doc).map Paragraph.text := by
  have haux : add_comments_aux doc aks =
      ({ doc with comments := doc.comments ++ aks.map (mkCommentD doc) }, none) :=
    add_comments_aux_inRange aks doc h
  refine ⟨{ doc with comments := doc.comments ++ aks.map (mkCommentD doc) }, ?_, rfl, rfl, rfl⟩
  simp only [add_comments, haux]

/-- Witness for C9. -/
theorem C9_reinsertion_frame_witness :
    ∃ d, add_comments exDocAB ⟨[⟨0, "x"⟩]⟩ = Except.ok d ∧
      d.body = exDocAB.body ∧
      Document.paragraphs d = Document.paragraphs exDocAB ∧
      (Document.paragraphs d).map Paragraph.text =
        (Document.paragraphs exDocAB).map Paragraph.text :=
  C9_reinsertion_frame exDocAB [⟨0, "x"⟩] (by decide)

/-- Claim C10: an assignment whose identifier `d` satisfies `-n ≤ d ≤ -1` on a
document with `n ≥ 1` paragraphs is silently accepted: reinsertion succeeds
and attaches the annotation to the paragraph at position `n + d`, counted from
the end of the document (Python negative-index wraparound). -/
theorem C10_negative_wraparound (doc : Document) (d : Int) (a : String)
    (h1 : 1 ≤ (Document.paragraphs doc).length)
    (h2 : -((Document.paragraphs doc).length : Int) ≤ d) (h3 : d ≤ -1) :
    ∃ p, (Document.paragraphs doc)[(((Document.paragraphs doc).length : Int) + d).toNat]? =
        some p ∧
      add_comments doc ⟨[⟨d, a⟩]⟩ = Except.ok
        { doc with comments := doc.comments ++
            [{ para_pos := (((Document.paragraphs doc).length : Int) + d).toNat,
               anchor_runs := p.runs, text := a, author := "ChemistryAI" }] } := by
  have hneg : d < 0 := by omega
  have h0 : 0 ≤ d + ((Document.paragraphs doc).length : Int) := by omega
  obtain ⟨p, hget, hpy⟩ := pyIndex_neg_wrap (Document.paragraphs doc) d hneg h0
  have hcomm : d + ((Document.paragraphs doc).length : Int) =
      ((Document.paragraphs doc).length : Int) + d := by omega
  rw [hcomm] at hget hpy
  refine ⟨p, hget, ?_⟩
  simp only [add_comments, add_comments_aux, hpy]
  rfl

/-- Witness for C10. -/
theorem C10_negative_wraparound_witness :
    ∃ p, (Document.paragraphs exDoc1)[(((Document.paragraphs exDoc1).length : Int) +
        (-1)).toNat]? = some p ∧
      add_comments exDoc1 ⟨[⟨-1, "w"⟩]⟩ = Except.ok
        { exDoc1 with comments := exDoc1.comments ++
            [{ para_pos := (((Document.paragraphs exDoc1).length : Int) + (-1)).toNat,
               anchor_runs := p.runs, text := "w", author := "ChemistryAI" }] } :=
  C10_negative_wraparound exDoc1 (-1) "w" (by decide) (by decide) (by decide)

end DocAnnotator
